import Mathlib

/-!
Verification of the atlas packer in `optimize.py` of optimized-face-looker.

The packer discovers frame files `<prefix>_<angle>.jpg`, groups them into
named sections, plans a near-square grid layout bounded by a maximum atlas
width, and emits a manifest describing tile geometry and per-section index
ranges.  The definitions below are a shallow embedding of that program:
pure functions over `Nat`, `Int`, `String` and lists, with the fallible
top-level run returning `Except`.  Python's float arithmetic
(`round`, `math.sqrt`, `math.ceil`) is modelled by its exact rational
semantics rendered in integer arithmetic, with Python's
round-half-to-even tie rule.
-/

namespace FaceAtlas

/-- Nearest integer to `p / q` (naturals, `q > 0`), ties to even.  This is the
integer-arithmetic rendering of Python's `int(round(p / q))` as it appears in
`target_h = int(round(base_h * (target_w / base_w)))` (optimize.py lines
127 and 131, with `p = base_h * target_w`, `q = base_w`). -/
def rheNat (p q : ℕ) : ℕ :=
  let f := p / q
  let r := p % q
  if 2 * r < q then f
  else if q < 2 * r then f + 1
  else if f % 2 = 0 then f else f + 1

/-- Largest `j ≤ k` with `j * j ≤ n` (0 when there is none). -/
def floorSqrtAux (n : ℕ) : ℕ → ℕ
  | 0 => 0
  | k + 1 => if (k + 1) * (k + 1) ≤ n then k + 1 else floorSqrtAux n k

/-- Integer square root `⌊sqrt n⌋`, defined by structural recursion (the
search bound `n` always suffices since `⌊sqrt n⌋ ≤ n`). -/
def floorSqrt (n : ℕ) : ℕ := floorSqrtAux n n

/-- Nearest integer to `sqrt (a / b)` (naturals, `b > 0`), ties to even:
the integer-arithmetic rendering of `int(round(math.sqrt(a / b)))` in
optimize.py line 135 (with `a = frame_count * target_h`, `b = target_w`).
`floorSqrt (a / b)` is `⌊sqrt (a / b)⌋`; the result rounds up exactly when
`sqrt (a / b) > k + 1/2`, i.e. `4 * a > (2 * k + 1) ^ 2 * b`, and the exact
tie `sqrt (a / b) = k + 1/2` resolves to the even neighbour, matching
Python's `round`. -/
def natRoundSqrt (a b : ℕ) : ℕ :=
  let k := floorSqrt (a / b)
  if (2 * k + 1) ^ 2 * b < 4 * a then k + 1
  else if 4 * a < (2 * k + 1) ^ 2 * b then k
  else if k % 2 = 0 then k else k + 1

/-- Target per-frame dimensions (optimize.py lines 122-131): with a
tile-width override, downscale to it when the base width exceeds it;
otherwise downscale to the maximum atlas width when the base width exceeds
that; else keep the base dimensions. -/
def targetDims (baseW baseH maxW : ℕ) (tileW : Option ℕ) : ℕ × ℕ :=
  match tileW with
  | some t => if t < baseW then (t, rheNat (baseH * t) baseW) else (baseW, baseH)
  | none => if maxW < baseW then (maxW, rheNat (baseH * maxW) baseW) else (baseW, baseH)

/-- Ideal column count (optimize.py lines 135-136):
`round(sqrt(n * target_h / target_w))` clamped to `[1, n]`. -/
def idealCols (n tw th : ℕ) : ℕ :=
  max 1 (min n (natRoundSqrt (n * th) tw))

/-- Final column count (optimize.py lines 137-142): start from the ideal
count, then if `columns * target_w > max_width` reduce to
`max 1 (max_width // target_w)`; finally force at least 1. -/
def planColumns (n tw th maxW : ℕ) : ℕ :=
  let ic := idealCols n tw th
  let c1 := if maxW < ic * tw then max 1 (maxW / tw) else ic
  if c1 < 1 then 1 else c1

/-- The layout plan derived by optimize.py lines 119-154: target frame
dimensions, grid shape and atlas dimensions. -/
structure LayoutPlan where
  targetW : ℕ
  targetH : ℕ
  columns : ℕ
  rows : ℕ
  atlasW : ℕ
  atlasH : ℕ
deriving DecidableEq, Repr

/-- The whole planning pass (optimize.py lines 119-154):
`rows = ceil(n / columns)` is rendered as `(n + columns - 1) / columns`. -/
def plan (n baseW baseH maxW : ℕ) (tileW : Option ℕ) : LayoutPlan :=
  let td := targetDims baseW baseH maxW tileW
  let c := planColumns n td.1 td.2 maxW
  let r := (n + c - 1) / c
  { targetW := td.1, targetH := td.2, columns := c, rows := r,
    atlasW := c * td.1, atlasH := r * td.2 }

/-- Split a character list on the underscore character, like Python's
`name.split("_")` (always at least one part). -/
def splitUnd : List Char → List (List Char)
  | [] => [[]]
  | c :: cs =>
    if c = '_' then [] :: splitUnd cs
    else
      match splitUnd cs with
      | [] => [[c]]
      | w :: ws => (c :: w) :: ws

/-- Split a list of filename parts (the result of splitting on the underscore)
into the part before the last separator, re-joined with underscores, and the
part after it: the embedding of Python's `name.rsplit("_", 1)` together with
the `if "_" not in name: continue` guard (optimize.py lines 43-47); a list
with fewer than two parts (no underscore in the name) yields `none`. -/
def splitLast : List (List Char) → Option (List Char × List Char)
  | [] => none
  | [_] => none
  | [a, b] => some (a, b)
  | a :: rest =>
    match splitLast rest with
    | some pr => some (a ++ '_' :: pr.1, pr.2)
    | none => none

/-- Parse a nonempty all-digit character list as a natural number: the
embedding of Python's `int(angle_str)` for the angle suffixes that matter
(negative or malformed suffixes make the frame be skipped either way,
by `except ValueError` or by the `angle not in angles` test,
optimize.py lines 49-52). -/
def digitsToNatAux : List Char → ℕ → Option ℕ
  | [], acc => some acc
  | c :: cs, acc =>
    if '0'.toNat ≤ c.toNat ∧ c.toNat ≤ '9'.toNat then
      digitsToNatAux cs (10 * acc + (c.toNat - '0'.toNat))
    else none

/-- Parse a digit string, rejecting the empty string like Python's `int`. -/
def digitsToNat : List Char → Option ℕ
  | [] => none
  | c :: cs => digitsToNatAux (c :: cs) 0

/-- Parse a frame file stem `<prefix>_<angle>` into its section name and angle
(optimize.py lines 42-50); stems without an underscore or whose trailing part
is not a natural number are ignored. -/
def parseStem (name : String) : Option (String × ℕ) :=
  match splitLast (splitUnd name.data) with
  | none => none
  | some pr =>
    match digitsToNat pr.2 with
    | none => none
    | some a => some (String.mk pr.1, a)

/-- The configured angle set `range(0, 360, step)` (optimize.py line 36). -/
def angleList (step : ℕ) : List ℕ :=
  (List.range ((360 + step - 1) / step)).map (fun i => i * step)

/-- Record one discovered (prefix, angle) pair in the insertion-ordered group
map, keeping the first occurrence of each angle within a section: the
embedding of `groups.setdefault(prefix, {}).setdefault(angle, p)`
(optimize.py line 53). -/
def addFrame : List (String × List ℕ) → String → ℕ → List (String × List ℕ)
  | [], pr, a => [(pr, [a])]
  | (p, angs) :: rest, pr, a =>
    if p = pr then (p, if a ∈ angs then angs else angs ++ [a]) :: rest
    else (p, angs) :: addFrame rest pr a

/-- Frame discovery (optimize.py lines 40-53): fold over the sorted stem list,
parse each stem, drop angles outside the configured set, group by prefix. -/
def discover (angs : List ℕ) (stems : List String) : List (String × List ℕ) :=
  stems.foldl (fun g nm =>
    match parseStem nm with
    | none => g
    | some pa => if pa.2 ∈ angs then addFrame g pa.1 pa.2 else g) []

/-- Test whether the second character list is a prefix of the first: the
embedding of Python's `str.startswith`. -/
def startsWithChars : List Char → List Char → Bool
  | _, [] => true
  | [], _ :: _ => false
  | a :: s, b :: p => decide (a = b) && startsWithChars s p

/-- Strict lexicographic order on character lists by code point: the order
Python uses to compare strings. -/
def charsLt : List Char → List Char → Bool
  | [], [] => false
  | [], _ :: _ => true
  | _ :: _, [] => false
  | a :: s, b :: t =>
    if a.toNat < b.toNat then true
    else if b.toNat < a.toNat then false
    else charsLt s t

/-- Section ordering key (optimize.py lines 60-66): "my_face" first, then
"my_face_*" alphabetically, then everything else alphabetically. -/
def section_sort_key (p : String) : ℕ × String :=
  if p = "my_face" then (0, "")
  else if startsWithChars p.data ("my_face_".data) then (1, p)
  else (2, p)

/-- Lexicographic ≤ on sort keys, matching Python's tuple comparison with
string comparison by code point. -/
def keyLE (a b : ℕ × String) : Bool :=
  decide (a.1 < b.1) ||
    (decide (a.1 = b.1) && (charsLt a.2.data b.2.data || decide (a.2 = b.2)))

/-- Insert one section name into an already key-sorted list (stable). -/
def insertSec (x : String) : List String → List String
  | [] => [x]
  | y :: ys =>
    if keyLE (section_sort_key x) (section_sort_key y) then x :: y :: ys
    else y :: insertSec x ys

/-- Stable sort of the section names by `section_sort_key`: the embedding of
`sorted(groups.keys(), key=section_sort_key)` (optimize.py line 68); the key
function is injective on distinct names, so any correct sort (here insertion
sort) produces the same list as Python's sort. -/
def sortSections : List String → List String
  | [] => []
  | x :: xs => insertSec x (sortSections xs)

/-- Per-section index-range descriptor collected by the packing loop
(optimize.py lines 100-104). -/
structure SectionInfo where
  name : String
  startIndex : ℕ
  frameCount : ℕ
deriving DecidableEq, Repr

/-- Look up a section's discovered angles (`groups[prefix]`). -/
def lookupGroup (groups : List (String × List ℕ)) (p : String) : List ℕ :=
  match groups.find? (fun g => g.1 == p) with
  | some g => g.2
  | none => []

/-- One iteration of the per-section packing loop (optimize.py lines 89-104):
collect the section's frames in angle order (missing angles are skipped with a
warning), append them to the flat list, and record a section descriptor only
when at least one frame was found. -/
def packStep (angs : List ℕ) (groups : List (String × List ℕ))
    (acc : List (String × ℕ) × List SectionInfo) (p : String) :
    List (String × ℕ) × List SectionInfo :=
  let frames := (angs.filter (fun a => (lookupGroup groups p).contains a)).map (fun a => (p, a))
  if 0 < frames.length then
    (acc.1 ++ frames, acc.2 ++ [⟨p, acc.1.length, frames.length⟩])
  else
    (acc.1 ++ frames, acc.2)

/-- The full flattening pass over the ordered sections (optimize.py lines
68-104), producing the flat frame list and the section descriptors. -/
def buildFlatSections (angs : List ℕ) (groups : List (String × List ℕ)) :
    List (String × ℕ) × List SectionInfo :=
  (sortSections (groups.map Prod.fst)).foldl (packStep angs groups) ([], [])

/-- Display-name derivation (optimize.py lines 169-174): "my_face" maps to
"default", a "my_face_" prefixed name maps to its suffix after that prefix
(`prefix[len("my_face_"):]`), anything else is unchanged. -/
def display_name (p : String) : String :=
  if p = "my_face" then "default"
  else if startsWithChars p.data ("my_face_".data) then
    String.mk (p.data.drop ("my_face_".data.length))
  else p

/-- Section descriptor as emitted in the manifest (optimize.py line 185). -/
structure ManifestSection where
  name : String
  displayName : String
  startIndex : ℕ
  frameCount : ℕ
deriving DecidableEq, Repr

/-- The manifest written next to the atlas (optimize.py lines 176-188). -/
structure Manifest where
  step : ℕ
  frameCount : ℕ
  frameWidth : ℕ
  frameHeight : ℕ
  columns : ℕ
  rows : ℕ
  image : String
  sections : List ManifestSection
deriving DecidableEq, Repr

deriving instance DecidableEq for Except

/-- Validation predicate for the optional tile width (optimize.py line 32). -/
def tileBad : Option ℤ → Bool
  | some t => decide (t ≤ 0)
  | none => false

/-- The whole pack operation (optimize.py `main`): argument validation
(lines 26-34), discovery (36-57), flattening (68-108), planning (119-154) and
manifest construction (176-188).  File writes are out of scope; an
`Except.error` result models a non-zero process exit with nothing written,
and `Except.ok` carries the manifest that would be written.  The first
frame's pixel size, read from disk in the program, is passed in as
`baseW`/`baseH`. -/
def runPack (step maxW : ℤ) (tileW : Option ℤ) (stems : List String)
    (baseW baseH : ℕ) : Except String Manifest :=
  if step ≤ 0 ∨ 360 < step then Except.error "step must be 1..360"
  else if maxW ≤ 0 then Except.error "max-width must be > 0"
  else if tileBad tileW then Except.error "tile-width must be > 0"
  else
    let angs := angleList step.toNat
    let groups := discover angs stems
    if groups.isEmpty then Except.error "no prefixed frames found"
    else
      let fs := buildFlatSections angs groups
      if fs.1.isEmpty then Except.error "no frames found to pack after grouping"
      else
        let p := plan fs.1.length baseW baseH maxW.toNat (tileW.map Int.toNat)
        Except.ok
          { step := step.toNat, frameCount := fs.1.length, frameWidth := p.targetW,
            frameHeight := p.targetH, columns := p.columns, rows := p.rows,
            image := "anim-face.jpg",
            sections := fs.2.map (fun s =>
              { name := s.name, displayName := display_name s.name,
                startIndex := s.startIndex, frameCount := s.frameCount }) }

/-- Exact contiguity invariant for section descriptors starting at index `i`:
each descriptor starts where the previous one ended and holds at least one
frame. -/
def exactChain : ℕ → List SectionInfo → Prop
  | _, [] => True
  | i, s :: rest => s.startIndex = i ∧ 1 ≤ s.frameCount ∧
      exactChain (s.startIndex + s.frameCount) rest

/-- The ordering on section names induced by `section_sort_key`, as used by
`sorted(groups.keys(), key=section_sort_key)`. -/
def keyOrder (a b : String) : Prop :=
  keyLE (section_sort_key a) (section_sort_key b) = true

theorem floorSqrtAux_sq_le (n : ℕ) : ∀ k, floorSqrtAux n k * floorSqrtAux n k ≤ n
  | 0 => by simp [floorSqrtAux]
  | k + 1 => by
    unfold floorSqrtAux
    split
    · assumption
    · exact floorSqrtAux_sq_le n k

theorem floorSqrtAux_lt_succ_sq (n : ℕ) :
    ∀ k, n < (k + 1) * (k + 1) → n < (floorSqrtAux n k + 1) * (floorSqrtAux n k + 1)
  | 0, h => by simpa [floorSqrtAux] using h
  | k + 1, h => by
    unfold floorSqrtAux
    split
    · exact h
    · exact floorSqrtAux_lt_succ_sq n k (by omega)

/-- Characterisation of `floorSqrt`: it is the integer square root. -/
theorem floorSqrt_isSqrt (n : ℕ) :
    floorSqrt n * floorSqrt n ≤ n ∧ n < (floorSqrt n + 1) * (floorSqrt n + 1) :=
  ⟨floorSqrtAux_sq_le n n, floorSqrtAux_lt_succ_sq n n (by nlinarith)⟩

theorem planColumns_pos (n tw th maxW : ℕ) : 1 ≤ planColumns n tw th maxW := by
  unfold planColumns
  dsimp only
  split <;> split <;> omega

theorem idealCols_pos (n tw th : ℕ) : 1 ≤ idealCols n tw th :=
  le_max_left 1 _

theorem planColumns_mul_le (n tw th maxW : ℕ) (h : tw ≤ maxW) :
    planColumns n tw th maxW * tw ≤ maxW := by
  unfold planColumns
  dsimp only
  rcases Nat.eq_zero_or_pos tw with h0 | h0
  · subst h0
    simp
  · set ic := idealCols n tw th with hic
    by_cases hlt : maxW < ic * tw
    · have hdiv : 1 ≤ maxW / tw := (Nat.one_le_div_iff h0).2 h
      have hmax : max 1 (maxW / tw) = maxW / tw := Nat.max_eq_right hdiv
      simp only [if_pos hlt, hmax]
      have : ¬ maxW / tw < 1 := by omega
      simp only [if_neg this]
      exact Nat.div_mul_le_self maxW tw
    · have h1 : 1 ≤ ic := idealCols_pos n tw th
      have : ¬ ic < 1 := by omega
      simp only [if_neg hlt, if_neg this]
      omega

theorem plan_columns_eq (n bw bh maxW : ℕ) (tileW : Option ℕ) :
    (plan n bw bh maxW tileW).columns =
      planColumns n (targetDims bw bh maxW tileW).1 (targetDims bw bh maxW tileW).2 maxW := rfl

theorem plan_targetW_eq (n bw bh maxW : ℕ) (tileW : Option ℕ) :
    (plan n bw bh maxW tileW).targetW = (targetDims bw bh maxW tileW).1 := rfl

theorem plan_rows_eq (n bw bh maxW : ℕ) (tileW : Option ℕ) :
    (plan n bw bh maxW tileW).rows =
      (n + (plan n bw bh maxW tileW).columns - 1) / (plan n bw bh maxW tileW).columns := rfl

theorem plan_targetH_eq (n bw bh maxW : ℕ) (tileW : Option ℕ) :
    (plan n bw bh maxW tileW).targetH = (targetDims bw bh maxW tileW).2 := rfl

theorem grid_ceil_bounds (n c : ℕ) (hn : 1 ≤ n) (hc : 1 ≤ c) :
    n ≤ c * ((n + c - 1) / c) ∧ c * ((n + c - 1) / c) - n < c := by
  have hdm : c * ((n + c - 1) / c) + (n + c - 1) % c = n + c - 1 :=
    Nat.div_add_mod (n + c - 1) c
  have hmod : (n + c - 1) % c < c := Nat.mod_lt _ hc
  have key : ∀ m r, m + r = n + c - 1 → r < c → n ≤ m ∧ m - n < c := by
    intro m r hm hr
    omega
  exact key _ _ hdm hmod

theorem rheNat_mul_sub_abs (p q : ℕ) (hq : 1 ≤ q) :
    2 * (((rheNat p q : ℕ) : ℤ) * q - p).natAbs ≤ q := by
  have hdm : q * (p / q) + p % q = p := Nat.div_add_mod p q
  have hmod : p % q < q := Nat.mod_lt _ hq
  have hp : (p : ℤ) = (q : ℤ) * ((p / q : ℕ) : ℤ) + ((p % q : ℕ) : ℤ) := by
    exact_mod_cast hdm.symm
  unfold rheNat
  dsimp only
  split_ifs with h1 h2 h3
  · have e : ((p / q : ℕ) : ℤ) * q - p = -((p % q : ℕ) : ℤ) := by rw [hp]; ring
    rw [e]
    omega
  · have e : ((p / q + 1 : ℕ) : ℤ) * q - p = (q : ℤ) - ((p % q : ℕ) : ℤ) := by
      rw [hp]; push_cast; ring
    rw [e]
    omega
  · have e : ((p / q : ℕ) : ℤ) * q - p = -((p % q : ℕ) : ℤ) := by rw [hp]; ring
    rw [e]
    omega
  · have e : ((p / q + 1 : ℕ) : ℤ) * q - p = (q : ℤ) - ((p % q : ℕ) : ℤ) := by
      rw [hp]; push_cast; ring
    rw [e]
    omega

theorem targetDims_none (bw bh maxW : ℕ) :
    targetDims bw bh maxW none =
      if maxW < bw then (maxW, rheNat (bh * maxW) bw) else (bw, bh) := rfl

theorem targetDims_some (bw bh maxW t : ℕ) :
    targetDims bw bh maxW (some t) =
      if t < bw then (t, rheNat (bh * t) bw) else (bw, bh) := rfl

theorem targetDims_none_fst_le (bw bh maxW : ℕ) : (targetDims bw bh maxW none).1 ≤ maxW := by
  rw [targetDims_none]
  split <;> dsimp only <;> omega

theorem targetDims_fst_pos (bw bh maxW : ℕ) (tileW : Option ℕ) (hbw : 1 ≤ bw)
    (hmw : 1 ≤ maxW) (ht : ∀ t ∈ tileW, 1 ≤ t) : 1 ≤ (targetDims bw bh maxW tileW).1 := by
  cases tileW with
  | none =>
    rw [targetDims_none]
    split <;> dsimp only <;> omega
  | some t =>
    have := ht t rfl
    rw [targetDims_some]
    split <;> dsimp only <;> omega

theorem planColumns_eq_one_of_lt (n tw th maxW : ℕ) (h : maxW < tw) :
    planColumns n tw th maxW = 1 := by
  unfold planColumns
  dsimp only
  have h1 : 0 < idealCols n tw th := idealCols_pos n tw th
  have hlt : maxW < idealCols n tw th * tw :=
    lt_of_lt_of_le h (Nat.le_mul_of_pos_left tw h1)
  rw [if_pos hlt, Nat.div_eq_of_lt h]
  simp

/-- Claim C2: for every planning input whose target frame width is at most the
maximum atlas width, after the width-bound enforcement step (optimize.py lines
139-142) the resulting layout satisfies `columns * targetWidth ≤ maxAtlasWidth`. -/
theorem claimC2_width_bound_post_enforcement (n bw bh maxW : ℕ) (tileW : Option ℕ)
    (h : (plan n bw bh maxW tileW).targetW ≤ maxW) :
    (plan n bw bh maxW tileW).columns * (plan n bw bh maxW tileW).targetW ≤ maxW := by
  rw [plan_columns_eq, plan_targetW_eq] at *
  exact planColumns_mul_le n _ _ maxW h

theorem claimC2_witness :
    (plan 3 100 80 256 none).targetW ≤ 256 ∧
      (plan 3 100 80 256 none).columns * (plan 3 100 80 256 none).targetW ≤ 256 :=
  ⟨by decide, claimC2_width_bound_post_enforcement 3 100 80 256 none (by decide)⟩

/-- Claim C3: for every frame count `n ≥ 1` (and positive target dimensions),
the planned grid with `rows = ceil(n / columns)` (optimize.py line 152) holds
all frames (`columns * rows ≥ n`) and at most the last row is partially filled
(`columns * rows - n < columns`). -/
theorem claimC3_grid_covers (n bw bh maxW : ℕ) (tileW : Option ℕ) (hn : 1 ≤ n)
    (htw : 1 ≤ (plan n bw bh maxW tileW).targetW)
    (hth : 1 ≤ (plan n bw bh maxW tileW).targetH) :
    n ≤ (plan n bw bh maxW tileW).columns * (plan n bw bh maxW tileW).rows ∧
      (plan n bw bh maxW tileW).columns * (plan n bw bh maxW tileW).rows - n <
        (plan n bw bh maxW tileW).columns := by
  rw [plan_rows_eq, plan_columns_eq]
  exact grid_ceil_bounds n _ hn (planColumns_pos n _ _ maxW)

theorem claimC3_witness :
    1 ≤ (3 : ℕ) ∧ 1 ≤ (plan 3 100 80 256 none).targetW ∧
      1 ≤ (plan 3 100 80 256 none).targetH ∧
      (3 ≤ (plan 3 100 80 256 none).columns * (plan 3 100 80 256 none).rows ∧
        (plan 3 100 80 256 none).columns * (plan 3 100 80 256 none).rows - 3 <
          (plan 3 100 80 256 none).columns) :=
  ⟨by decide, by decide, by decide,
    claimC3_grid_covers 3 100 80 256 none (by decide) (by decide) (by decide)⟩

/-- Claim C4, counterexample: with base frame 3×1 and tile-width override 2,
the code computes `targetH = round(1 * 2 / 3) = 1` (optimize.py line 127), and
`targetH * baseW = 3 ≠ 2 = baseH * targetW`: the aspect ratio of the target
frame is NOT exactly the aspect ratio of the base frame. -/
theorem claimC4_counterexample :
    ¬ ((plan 1 3 1 256 (some 2)).targetH * 3 = 1 * (plan 1 3 1 256 (some 2)).targetW) := by
  decide

/-- Claim C4, amended: the target height is the nearest integer (ties to even)
to `baseH * targetW / baseW`, so the aspect ratio is preserved only up to
rounding: `|targetH * baseW - baseH * targetW| ≤ baseW / 2` (stated as
`2 * |…| ≤ baseW`), with equality of ratios exactly when the division is
exact. -/
theorem claimC4_amended_aspect_within_rounding (n bw bh maxW : ℕ) (tileW : Option ℕ)
    (hbw : 1 ≤ bw) :
    2 * (((plan n bw bh maxW tileW).targetH : ℤ) * bw -
        (bh : ℤ) * (plan n bw bh maxW tileW).targetW).natAbs ≤ bw := by
  rw [plan_targetH_eq, plan_targetW_eq]
  cases tileW with
  | none =>
    rw [targetDims_none]
    split
    · dsimp only
      have h := rheNat_mul_sub_abs (bh * maxW) bw hbw
      push_cast at h
      exact h
    · dsimp only
      simp [mul_comm]
  | some t =>
    rw [targetDims_some]
    split
    · dsimp only
      have h := rheNat_mul_sub_abs (bh * t) bw hbw
      push_cast at h
      exact h
    · dsimp only
      simp [mul_comm]

theorem claimC4_amended_witness :
    1 ≤ (3 : ℕ) ∧
      2 * (((plan 1 3 1 256 (some 2)).targetH : ℤ) * 3 -
          (1 : ℤ) * (plan 1 3 1 256 (some 2)).targetW).natAbs ≤ 3 :=
  ⟨by decide, claimC4_amended_aspect_within_rounding 1 3 1 256 (some 2) (by decide)⟩

/-- Claim C1, counterexample: with a tile-width override of 100 and a maximum
atlas width of 50 (both accepted by validation), a single 100×100 frame yields
`targetW = 100` (no downscale, optimize.py line 125 compares against the tile
width only), `columns = 1`, and `columns * targetW = 100 > 50 = maxWidth`,
while the frame is not downscaled to fit within maxWidth — refuting the claimed
invariant `columns * targetW ≤ maxWidth` together with its stated sole
exception (`columns = 1` and the frame downscaled to fit). -/
theorem claimC1_counterexample :
    ¬ ((plan 1 100 100 50 (some 100)).columns * (plan 1 100 100 50 (some 100)).targetW ≤ 50 ∨
        ((plan 1 100 100 50 (some 100)).columns = 1 ∧
          (plan 1 100 100 50 (some 100)).targetW ≤ 50)) := by
  decide

/-- Claim C1, amended: without a tile-width override the invariant
`columns * targetWidth ≤ maxWidth` holds unconditionally (an over-wide single
frame is downscaled to exactly maxWidth); with an override the invariant holds
whenever `targetWidth ≤ maxWidth`, and when the (tile-width-sized) frame still
exceeds maxWidth the planner sets `columns = 1` but does not downscale the
frame to fit maxWidth. -/
theorem claimC1_amended_width_bound (n bw bh maxW : ℕ) (tileW : Option ℕ)
    (hn : 1 ≤ n) (hbw : 1 ≤ bw) (hmw : 1 ≤ maxW) (ht : ∀ t ∈ tileW, 1 ≤ t) :
    (tileW = none →
      (plan n bw bh maxW tileW).columns * (plan n bw bh maxW tileW).targetW ≤ maxW) ∧
    ((plan n bw bh maxW tileW).targetW ≤ maxW →
      (plan n bw bh maxW tileW).columns * (plan n bw bh maxW tileW).targetW ≤ maxW) ∧
    (maxW < (plan n bw bh maxW tileW).targetW → (plan n bw bh maxW tileW).columns = 1) := by
  refine ⟨?_, ?_, ?_⟩
  · intro hnone
    subst hnone
    rw [plan_columns_eq, plan_targetW_eq]
    exact planColumns_mul_le n _ _ maxW (targetDims_none_fst_le bw bh maxW)
  · intro h
    rw [plan_columns_eq, plan_targetW_eq] at *
    exact planColumns_mul_le n _ _ maxW h
  · intro h
    rw [plan_columns_eq]
    rw [plan_targetW_eq] at h
    exact planColumns_eq_one_of_lt n _ _ maxW h

theorem exactChain_append_iff : ∀ (l1 l2 : List SectionInfo) (i : ℕ),
    exactChain i (l1 ++ l2) ↔
      (exactChain i l1 ∧ exactChain (i + (l1.map SectionInfo.frameCount).sum) l2) := by
  intro l1
  induction l1 with
  | nil =>
    intro l2 i
    simp [exactChain]
  | cons s rest ih =>
    intro l2 i
    simp only [List.cons_append, exactChain, List.map_cons, List.sum_cons, List.append_eq]
    constructor
    · rintro ⟨hs, hc, h⟩
      rw [ih] at h
      obtain ⟨h1, h2⟩ := h
      refine ⟨⟨hs, hc, h1⟩, ?_⟩
      have he : s.startIndex + s.frameCount + (rest.map SectionInfo.frameCount).sum =
          i + (s.frameCount + (rest.map SectionInfo.frameCount).sum) := by omega
      rwa [he] at h2
    · rintro ⟨⟨hs, hc, h1⟩, h2⟩
      refine ⟨hs, hc, ?_⟩
      rw [ih]
      refine ⟨h1, ?_⟩
      have he : s.startIndex + s.frameCount + (rest.map SectionInfo.frameCount).sum =
          i + (s.frameCount + (rest.map SectionInfo.frameCount).sum) := by omega
      rwa [he]

theorem packStep_inv (angs : List ℕ) (groups : List (String × List ℕ)) (p : String)
    (acc : List (String × ℕ) × List SectionInfo)
    (h1 : exactChain 0 acc.2)
    (h2 : acc.1.length = (acc.2.map SectionInfo.frameCount).sum) :
    exactChain 0 (packStep angs groups acc p).2 ∧
      (packStep angs groups acc p).1.length =
        ((packStep angs groups acc p).2.map SectionInfo.frameCount).sum := by
  unfold packStep
  dsimp only
  set frames :=
    (angs.filter fun a => (lookupGroup groups p).contains a).map (fun a => (p, a)) with hf
  by_cases hpos : 0 < frames.length
  · rw [if_pos hpos]
    constructor
    · rw [exactChain_append_iff]
      refine ⟨h1, ?_⟩
      simp only [exactChain]
      exact ⟨by omega, hpos, trivial⟩
    · simp only [List.length_append, List.map_append, List.sum_append, List.map_cons,
        List.map_nil, List.sum_cons, List.sum_nil]
      omega
  · rw [if_neg hpos]
    constructor
    · exact h1
    · simp only [List.length_append]
      omega

theorem foldl_pack_inv (angs : List ℕ) (groups : List (String × List ℕ)) :
    ∀ (ps : List String) (acc : List (String × ℕ) × List SectionInfo),
      exactChain 0 acc.2 → acc.1.length = (acc.2.map SectionInfo.frameCount).sum →
      exactChain 0 (ps.foldl (packStep angs groups) acc).2 ∧
        (ps.foldl (packStep angs groups) acc).1.length =
          ((ps.foldl (packStep angs groups) acc).2.map SectionInfo.frameCount).sum := by
  intro ps
  induction ps with
  | nil =>
    intro acc h1 h2
    exact ⟨h1, h2⟩
  | cons p rest ih =>
    intro acc h1 h2
    have h := packStep_inv angs groups p acc h1 h2
    exact ih _ h.1 h.2

theorem buildFlatSections_inv (angs : List ℕ) (groups : List (String × List ℕ)) :
    exactChain 0 (buildFlatSections angs groups).2 ∧
      (buildFlatSections angs groups).1.length =
        ((buildFlatSections angs groups).2.map SectionInfo.frameCount).sum :=
  foldl_pack_inv angs groups _ ([], []) trivial rfl

theorem exactChain_mem_le : ∀ (l : List SectionInfo) (i : ℕ), exactChain i l →
    ∀ s ∈ l, i ≤ s.startIndex := by
  intro l
  induction l with
  | nil =>
    intro i _ s hs
    cases hs
  | cons a rest ih =>
    intro i h s hs
    obtain ⟨ha, hc, hrest⟩ := h
    rcases List.mem_cons.1 hs with rfl | hs'
    · omega
    · have := ih _ hrest s hs'
      omega

theorem exactChain_counts : ∀ (l : List SectionInfo) (i : ℕ), exactChain i l →
    ∀ s ∈ l, 1 ≤ s.frameCount := by
  intro l
  induction l with
  | nil =>
    intro i _ s hs
    cases hs
  | cons a rest ih =>
    intro i h s hs
    obtain ⟨ha, hc, hrest⟩ := h
    rcases List.mem_cons.1 hs with rfl | hs'
    · exact hc
    · exact ih _ hrest s hs'

theorem exactChain_chainRel : ∀ (l : List SectionInfo) (i : ℕ), exactChain i l →
    List.Chain' (fun a b => a.startIndex + a.frameCount = b.startIndex) l := by
  intro l
  induction l with
  | nil =>
    intro i _
    exact List.chain'_nil
  | cons a rest ih =>
    intro i h
    obtain ⟨ha, hc, hrest⟩ := h
    cases rest with
    | nil => exact List.chain'_singleton a
    | cons b rest2 =>
      obtain ⟨hb, hcb, hrest2⟩ := hrest
      exact List.Chain'.cons (by omega) (ih _ ⟨hb, hcb, hrest2⟩)

theorem exactChain_pairwise_le : ∀ (l : List SectionInfo) (i : ℕ), exactChain i l →
    List.Pairwise (fun a b => a.startIndex + a.frameCount ≤ b.startIndex) l := by
  intro l
  induction l with
  | nil =>
    intro i _
    exact List.Pairwise.nil
  | cons a rest ih =>
    intro i h
    obtain ⟨ha, hc, hrest⟩ := h
    rw [List.pairwise_cons]
    refine ⟨?_, ih _ hrest⟩
    intro b hb
    have := exactChain_mem_le rest _ hrest b hb
    omega

theorem exactChain_pairwise_lt : ∀ (l : List SectionInfo) (i : ℕ), exactChain i l →
    List.Pairwise (fun a b => a.startIndex < b.startIndex) l := by
  intro l
  induction l with
  | nil =>
    intro i _
    exact List.Pairwise.nil
  | cons a rest ih =>
    intro i h
    obtain ⟨ha, hc, hrest⟩ := h
    rw [List.pairwise_cons]
    refine ⟨?_, ih _ hrest⟩
    intro b hb
    have := exactChain_mem_le rest _ hrest b hb
    omega

theorem exactChain_head : ∀ (l : List SectionInfo) (i : ℕ), exactChain i l →
    ∀ s, l.head? = some s → s.startIndex = i := by
  intro l i h s hs
  cases l with
  | nil => cases hs
  | cons a rest =>
    obtain ⟨ha, _, _⟩ := h
    cases hs
    exact ha

theorem runPack_ok_parts (step maxW : ℤ) (tileW : Option ℤ) (stems : List String)
    (baseW baseH : ℕ) (m : Manifest)
    (h : runPack step maxW tileW stems baseW baseH = Except.ok m) :
    m.frameCount = (buildFlatSections (angleList step.toNat)
        (discover (angleList step.toNat) stems)).1.length ∧
      m.sections = (buildFlatSections (angleList step.toNat)
        (discover (angleList step.toNat) stems)).2.map
          (fun s => ⟨s.name, display_name s.name, s.startIndex, s.frameCount⟩) := by
  unfold runPack at h
  dsimp only at h
  by_cases hstep : step ≤ 0 ∨ 360 < step
  · rw [if_pos hstep] at h
    cases h
  rw [if_neg hstep] at h
  by_cases hmw : maxW ≤ 0
  · rw [if_pos hmw] at h
    cases h
  rw [if_neg hmw] at h
  by_cases htb : tileBad tileW = true
  · rw [if_pos htb] at h
    cases h
  rw [if_neg htb] at h
  by_cases hg : (discover (angleList step.toNat) stems).isEmpty = true
  · rw [if_pos hg] at h
    cases h
  rw [if_neg hg] at h
  by_cases hfe : (buildFlatSections (angleList step.toNat)
      (discover (angleList step.toNat) stems)).1.isEmpty = true
  · rw [if_pos hfe] at h
    cases h
  rw [if_neg hfe] at h
  cases h
  exact ⟨rfl, rfl⟩

theorem charsLt_cons (a b : Char) (s t : List Char) :
    charsLt (a :: s) (b :: t) = true ↔
      a.toNat < b.toNat ∨ (a.toNat = b.toNat ∧ charsLt s t = true) := by
  simp only [charsLt]
  by_cases h1 : a.toNat < b.toNat
  · simp [h1]
  · by_cases h2 : b.toNat < a.toNat
    · simp only [if_neg h1, if_pos h2]
      constructor
      · intro h
        cases h
      · intro h
        omega
    · have he : a.toNat = b.toNat := by omega
      simp [h1, h2, he]

theorem charsLt_total : ∀ x y : List Char, charsLt x y = true ∨ charsLt y x = true ∨ x = y := by
  intro x
  induction x with
  | nil =>
    intro y
    cases y with
    | nil => right; right; rfl
    | cons b t => left; rfl
  | cons a s ih =>
    intro y
    cases y with
    | nil => right; left; rfl
    | cons b t =>
      by_cases hab : a.toNat < b.toNat
      · left
        rw [charsLt_cons]
        exact Or.inl hab
      · by_cases hba : b.toNat < a.toNat
        · right; left
          rw [charsLt_cons]
          exact Or.inl hba
        · have hn : a.toNat = b.toNat := by omega
          have hc : a = b := Char.ext (UInt32.ext hn)
          subst hc
          rcases ih t with h | h | h
          · left
            rw [charsLt_cons]
            exact Or.inr ⟨rfl, h⟩
          · right; left
            rw [charsLt_cons]
            exact Or.inr ⟨rfl, h⟩
          · right; right
            rw [h]

theorem charsLt_trans : ∀ x y z : List Char,
    charsLt x y = true → charsLt y z = true → charsLt x z = true := by
  intro x
  induction x with
  | nil =>
    intro y z hxy hyz
    cases z with
    | nil =>
      cases y with
      | nil => exact hxy
      | cons b t => cases hyz
    | cons c u => rfl
  | cons a s ih =>
    intro y z hxy hyz
    cases y with
    | nil => cases hxy
    | cons b t =>
      cases z with
      | nil => cases hyz
      | cons c u =>
        rw [charsLt_cons] at hxy hyz ⊢
        rcases hxy with h1 | ⟨h1, h1s⟩ <;> rcases hyz with h2 | ⟨h2, h2s⟩
        · exact Or.inl (by omega)
        · exact Or.inl (by omega)
        · exact Or.inl (by omega)
        · exact Or.inr ⟨by omega, ih t u h1s h2s⟩

theorem keyLE_total (a b : ℕ × String) : keyLE a b = true ∨ keyLE b a = true := by
  unfold keyLE
  simp only [Bool.or_eq_true, Bool.and_eq_true, decide_eq_true_eq]
  by_cases h1 : a.1 < b.1
  · exact Or.inl (Or.inl h1)
  · by_cases h2 : b.1 < a.1
    · exact Or.inr (Or.inl h2)
    · have he : a.1 = b.1 := by omega
      rcases charsLt_total a.2.data b.2.data with h | h | h
      · exact Or.inl (Or.inr ⟨he, Or.inl h⟩)
      · exact Or.inr (Or.inr ⟨he.symm, Or.inl h⟩)
      · have hs : a.2 = b.2 := String.ext h
        exact Or.inl (Or.inr ⟨he, Or.inr hs⟩)

theorem keyLE_trans (a b c : ℕ × String) :
    keyLE a b = true → keyLE b c = true → keyLE a c = true := by
  unfold keyLE
  simp only [Bool.or_eq_true, Bool.and_eq_true, decide_eq_true_eq]
  rintro (h1 | ⟨h1, hs1⟩) (h2 | ⟨h2, hs2⟩)
  · exact Or.inl (by omega)
  · exact Or.inl (by omega)
  · exact Or.inl (by omega)
  · refine Or.inr ⟨by omega, ?_⟩
    rcases hs1 with hs1 | hs1 <;> rcases hs2 with hs2 | hs2
    · exact Or.inl (charsLt_trans _ _ _ hs1 hs2)
    · exact Or.inl (hs2 ▸ hs1)
    · exact Or.inl (hs1 ▸ hs2)
    · exact Or.inr (hs1.trans hs2)

theorem insertSec_mem (x : String) :
    ∀ (l : List String) (z : String), z ∈ insertSec x l → z = x ∨ z ∈ l := by
  intro l
  induction l with
  | nil =>
    intro z hz
    simp only [insertSec] at hz
    exact Or.inl (List.mem_singleton.1 hz)
  | cons y ys ih =>
    intro z hz
    simp only [insertSec] at hz
    by_cases hc : keyLE (section_sort_key x) (section_sort_key y) = true
    · rw [if_pos hc] at hz
      rcases List.mem_cons.1 hz with rfl | hz'
      · exact Or.inl rfl
      · exact Or.inr hz'
    · rw [if_neg hc] at hz
      rcases List.mem_cons.1 hz with rfl | hz'
      · exact Or.inr (List.mem_cons_self _ _)
      · rcases ih z hz' with h | h
        · exact Or.inl h
        · exact Or.inr (List.mem_cons_of_mem _ h)

theorem insertSec_pairwise (x : String) :
    ∀ l : List String, l.Pairwise keyOrder → (insertSec x l).Pairwise keyOrder := by
  intro l
  induction l with
  | nil =>
    intro _
    simp [insertSec, keyOrder]
  | cons y ys ih =>
    intro h
    rw [List.pairwise_cons] at h
    obtain ⟨hy, hys⟩ := h
    simp only [insertSec]
    by_cases hc : keyLE (section_sort_key x) (section_sort_key y) = true
    · rw [if_pos hc, List.pairwise_cons]
      refine ⟨?_, List.pairwise_cons.2 ⟨hy, hys⟩⟩
      intro z hz
      rcases List.mem_cons.1 hz with rfl | hz'
      · exact hc
      · exact keyLE_trans _ _ _ hc (hy z hz')
    · rw [if_neg hc, List.pairwise_cons]
      constructor
      · intro z hz
        rcases insertSec_mem x ys z hz with hzx | hz'
        · rw [hzx]
          rcases keyLE_total (section_sort_key x) (section_sort_key y) with h | h
          · exact absurd h hc
          · exact h
        · exact hy z hz'
      · exact ih hys

theorem insertSec_perm (x : String) : ∀ l : List String, (insertSec x l).Perm (x :: l) := by
  intro l
  induction l with
  | nil => simp [insertSec]
  | cons y ys ih =>
    simp only [insertSec]
    by_cases hc : keyLE (section_sort_key x) (section_sort_key y) = true
    · rw [if_pos hc]
    · rw [if_neg hc]
      exact (ih.cons y).trans (List.Perm.swap x y ys)

theorem sortSections_pairwise : ∀ l : List String, (sortSections l).Pairwise keyOrder := by
  intro l
  induction l with
  | nil => simp [sortSections]
  | cons x xs ih => exact insertSec_pairwise x (sortSections xs) ih

theorem sortSections_perm : ∀ l : List String, (sortSections l).Perm l := by
  intro l
  induction l with
  | nil => simp [sortSections]
  | cons x xs ih => exact (insertSec_perm x (sortSections xs)).trans (ih.cons x)

/-- Claim C6: the section ordering puts the canonical primary section
"my_face" first (its key class 0 is strictly below every other name's key
class), sections extending it with a sub-label next (key class 1, full name
as alphabetical tiebreak), and all others last (key class 2, name as
tiebreak); `sortSections` sorts by exactly this key (its output is
key-ordered and a permutation of its input); and on the input section set
{"subject", "subject_cowboy", "zzz"} (every input order) the ordered output
is exactly ["subject", "subject_cowboy", "zzz"]. -/
theorem claimC6_section_ordering :
    section_sort_key "my_face" = (0, "") ∧
    (∀ s : String, s ≠ "my_face" → 1 ≤ (section_sort_key s).1) ∧
    (∀ s : String, s ≠ "my_face" → startsWithChars s.data ("my_face_".data) = true →
        section_sort_key s = (1, s)) ∧
    (∀ s : String, s ≠ "my_face" → startsWithChars s.data ("my_face_".data) = false →
        section_sort_key s = (2, s)) ∧
    (∀ l : List String, (sortSections l).Pairwise keyOrder ∧ (sortSections l).Perm l) ∧
    sortSections ["subject", "subject_cowboy", "zzz"] = ["subject", "subject_cowboy", "zzz"] ∧
    sortSections ["subject", "zzz", "subject_cowboy"] = ["subject", "subject_cowboy", "zzz"] ∧
    sortSections ["subject_cowboy", "subject", "zzz"] = ["subject", "subject_cowboy", "zzz"] ∧
    sortSections ["subject_cowboy", "zzz", "subject"] = ["subject", "subject_cowboy", "zzz"] ∧
    sortSections ["zzz", "subject", "subject_cowboy"] = ["subject", "subject_cowboy", "zzz"] ∧
    sortSections ["zzz", "subject_cowboy", "subject"] = ["subject", "subject_cowboy", "zzz"] := by
  refine ⟨by decide, ?_, ?_, ?_,
    fun l => ⟨sortSections_pairwise l, sortSections_perm l⟩,
    by decide, by decide, by decide, by decide, by decide, by decide⟩
  · intro s hs
    unfold section_sort_key
    rw [if_neg hs]
    split <;> simp
  · intro s hs hw
    unfold section_sort_key
    rw [if_neg hs, if_pos hw]
  · intro s hs hw
    unfold section_sort_key
    rw [if_neg hs, if_neg (by simp [hw])]

theorem claimC6_witness :
    ("zzz" : String) ≠ "my_face" ∧ 1 ≤ (section_sort_key "zzz").1 :=
  ⟨by decide, claimC6_section_ordering.2.1 "zzz" (by decide)⟩

/-- Claim C5: the planner's ideal column count is
`round(sqrt(frameCount * targetHeight / targetWidth))` clamped to
`[1, frameCount]` (and is the final column count whenever it already fits the
width bound), and the spec scenario holds: step=120, one section of three
100×80 frames, maxAtlasWidth=256 gives targetWidth=100, columns=2, rows=2,
atlas 200×160, and a manifest with one section named "my_face", displayName
"default", startIndex 0, frameCount 3. -/
theorem claimC5_ideal_columns_and_scenario :
    (∀ (n bw bh maxW : ℕ) (tileW : Option ℕ),
        idealCols n (targetDims bw bh maxW tileW).1 (targetDims bw bh maxW tileW).2 *
            (targetDims bw bh maxW tileW).1 ≤ maxW →
        (plan n bw bh maxW tileW).columns =
          idealCols n (targetDims bw bh maxW tileW).1 (targetDims bw bh maxW tileW).2) ∧
    (∀ n tw th : ℕ, idealCols n tw th = max 1 (min n (natRoundSqrt (n * th) tw))) ∧
    plan 3 100 80 256 none = ⟨100, 80, 2, 2, 200, 160⟩ ∧
    natRoundSqrt (3 * 80) 100 = 2 ∧
    runPack 120 256 none ["my_face_0", "my_face_120", "my_face_240"] 100 80 =
      Except.ok ⟨120, 3, 100, 80, 2, 2, "anim-face.jpg", [⟨"my_face", "default", 0, 3⟩]⟩ := by
  refine ⟨?_, fun n tw th => rfl, by decide, by decide, by decide⟩
  intro n bw bh maxW tileW h
  rw [plan_columns_eq]
  unfold planColumns
  dsimp only
  rw [if_neg (not_lt.2 h)]
  have h1 : 1 ≤ idealCols n (targetDims bw bh maxW tileW).1 (targetDims bw bh maxW tileW).2 :=
    idealCols_pos _ _ _
  rw [if_neg (by omega)]

theorem claimC5_witness :
    idealCols 3 (targetDims 100 80 256 none).1 (targetDims 100 80 256 none).2 *
        (targetDims 100 80 256 none).1 ≤ 256 ∧
      (plan 3 100 80 256 none).columns =
        idealCols 3 (targetDims 100 80 256 none).1 (targetDims 100 80 256 none).2 :=
  ⟨by decide, claimC5_ideal_columns_and_scenario.1 3 100 80 256 none (by decide)⟩

/-- Claim C8: when discovery finds zero usable frames for the requested step,
the pack operation fails (models a non-zero process exit) and produces no
output: `runPack` returns `Except.error`, the branch that writes neither the
atlas nor the manifest (optimize.py lines 55-57 and 106-108). -/
theorem claimC8_no_frames_error (step maxW : ℤ) (tileW : Option ℤ) (stems : List String)
    (baseW baseH : ℕ) (h : discover (angleList step.toNat) stems = []) :
    ∃ e, runPack step maxW tileW stems baseW baseH = Except.error e := by
  unfold runPack
  dsimp only
  by_cases hstep : step ≤ 0 ∨ 360 < step
  · rw [if_pos hstep]
    exact ⟨_, rfl⟩
  · rw [if_neg hstep]
    by_cases hmw : maxW ≤ 0
    · rw [if_pos hmw]
      exact ⟨_, rfl⟩
    · rw [if_neg hmw]
      by_cases htb : tileBad tileW = true
      · rw [if_pos htb]
        exact ⟨_, rfl⟩
      · rw [if_neg htb, h]
        exact ⟨_, rfl⟩

theorem claimC8_witness :
    discover (angleList (45 : ℤ).toNat) ["0"] = [] ∧
      ∃ e, runPack 45 256 none ["0"] 100 100 = Except.error e :=
  ⟨by decide, claimC8_no_frames_error 45 256 none ["0"] 100 100 (by decide)⟩

/-- Claim C9: a non-positive maxAtlasWidth or tileWidth is rejected with a
fatal error before planning begins (optimize.py lines 29-34), and under the
validated preconditions (maxWidth ≥ 1, tileWidth ≥ 1 when given, base width
≥ 1) the computed target width and the column count are both nonzero, so the
divisions `max_width // target_w` (line 140) and `frame_count / columns`
(line 152) are well-defined. -/
theorem claimC9_validation_and_nonzero_divisors :
    (∀ (step maxW : ℤ) (tileW : Option ℤ) (stems : List String) (baseW baseH : ℕ),
        maxW ≤ 0 → ∃ e, runPack step maxW tileW stems baseW baseH = Except.error e) ∧
    (∀ (step maxW t : ℤ) (stems : List String) (baseW baseH : ℕ),
        t ≤ 0 → ∃ e, runPack step maxW (some t) stems baseW baseH = Except.error e) ∧
    (∀ (n bw bh maxW : ℕ) (tileW : Option ℕ), 1 ≤ bw → 1 ≤ maxW → (∀ t ∈ tileW, 1 ≤ t) →
        1 ≤ (plan n bw bh maxW tileW).targetW ∧ 1 ≤ (plan n bw bh maxW tileW).columns) := by
  refine ⟨?_, ?_, ?_⟩
  · intro step maxW tileW stems baseW baseH h
    unfold runPack
    dsimp only
    by_cases hstep : step ≤ 0 ∨ 360 < step
    · rw [if_pos hstep]
      exact ⟨_, rfl⟩
    · rw [if_neg hstep, if_pos h]
      exact ⟨_, rfl⟩
  · intro step maxW t stems baseW baseH h
    unfold runPack
    dsimp only
    by_cases hstep : step ≤ 0 ∨ 360 < step
    · rw [if_pos hstep]
      exact ⟨_, rfl⟩
    · rw [if_neg hstep]
      by_cases hmw : maxW ≤ 0
      · rw [if_pos hmw]
        exact ⟨_, rfl⟩
      · rw [if_neg hmw, if_pos (show tileBad (some t) = true from decide_eq_true h)]
        exact ⟨_, rfl⟩
  · intro n bw bh maxW tileW hbw hmw ht
    exact ⟨by rw [plan_targetW_eq]; exact targetDims_fst_pos bw bh maxW tileW hbw hmw ht,
      by rw [plan_columns_eq]; exact planColumns_pos n _ _ maxW⟩

theorem claimC9_witness :
    (∃ e, runPack 30 0 none ["my_face_0"] 100 100 = Except.error e) ∧
      (∃ e, runPack 30 256 (some 0) ["my_face_0"] 100 100 = Except.error e) ∧
      (1 ≤ (plan 3 100 80 256 none).targetW ∧ 1 ≤ (plan 3 100 80 256 none).columns) :=
  ⟨claimC9_validation_and_nonzero_divisors.1 30 0 none ["my_face_0"] 100 100 (by decide),
    claimC9_validation_and_nonzero_divisors.2.1 30 256 0 ["my_face_0"] 100 100 (by decide),
    claimC9_validation_and_nonzero_divisors.2.2 3 100 80 256 none (by decide) (by decide)
      (by decide)⟩

/-- Claim C7: in every emitted manifest, the section descriptors partition the
flattened frame index range: the section frame counts sum to the manifest's
frameCount, consecutive sections are contiguous
(`startIndex + frameCount` of one equals `startIndex` of the next), the index
ranges are pairwise non-overlapping, the startIndex values are strictly
increasing, every count is positive, and the first section starts at 0. -/
theorem claimC7_sections_partition (step maxW : ℤ) (tileW : Option ℤ) (stems : List String)
    (baseW baseH : ℕ) (m : Manifest)
    (h : runPack step maxW tileW stems baseW baseH = Except.ok m) :
    (m.sections.map ManifestSection.frameCount).sum = m.frameCount ∧
    List.Chain' (fun a b => a.startIndex + a.frameCount = b.startIndex) m.sections ∧
    List.Pairwise (fun a b => a.startIndex + a.frameCount ≤ b.startIndex) m.sections ∧
    List.Pairwise (fun a b => a.startIndex < b.startIndex) m.sections ∧
    (∀ s ∈ m.sections, 1 ≤ s.frameCount) ∧
    (∀ s0, m.sections.head? = some s0 → s0.startIndex = 0) := by
  obtain ⟨hfc, hsec⟩ := runPack_ok_parts step maxW tileW stems baseW baseH m h
  obtain ⟨hchain, hlen⟩ := buildFlatSections_inv (angleList step.toNat)
    (discover (angleList step.toNat) stems)
  refine ⟨?_, ?_, ?_, ?_, ?_, ?_⟩
  · rw [hsec, hfc, List.map_map]
    exact hlen.symm
  · rw [hsec, List.chain'_map]
    exact exactChain_chainRel _ 0 hchain
  · rw [hsec, List.pairwise_map]
    exact exactChain_pairwise_le _ 0 hchain
  · rw [hsec, List.pairwise_map]
    exact exactChain_pairwise_lt _ 0 hchain
  · rw [hsec]
    intro s hs
    rcases List.mem_map.1 hs with ⟨a, ha, rfl⟩
    exact exactChain_counts _ 0 hchain a ha
  · rw [hsec]
    intro s0 h0
    rw [List.head?_map] at h0
    rcases Option.map_eq_some'.1 h0 with ⟨a, ha, rfl⟩
    exact exactChain_head _ 0 hchain a ha

theorem claimC7_witness :
    runPack 120 256 none ["my_face_0", "my_face_120", "my_face_240"] 100 80 =
        Except.ok ⟨120, 3, 100, 80, 2, 2, "anim-face.jpg", [⟨"my_face", "default", 0, 3⟩]⟩ ∧
      ((⟨120, 3, 100, 80, 2, 2, "anim-face.jpg", [⟨"my_face", "default", 0, 3⟩]⟩ :
          Manifest).sections.map ManifestSection.frameCount).sum =
        (⟨120, 3, 100, 80, 2, 2, "anim-face.jpg", [⟨"my_face", "default", 0, 3⟩]⟩ :
          Manifest).frameCount :=
  ⟨by decide,
    (claimC7_sections_partition 120 256 none ["my_face_0", "my_face_120", "my_face_240"]
      100 80 _ (by decide)).1⟩

/-- Claim C10: a section whose expected frames are all missing is omitted from
the manifest entirely (optimize.py lines 99-104 append a descriptor only when
`count > 0`), so every section descriptor in an emitted manifest has
`frameCount ≥ 1`. -/
theorem claimC10_sections_nonempty (step maxW : ℤ) (tileW : Option ℤ) (stems : List String)
    (baseW baseH : ℕ) (m : Manifest)
    (h : runPack step maxW tileW stems baseW baseH = Except.ok m) :
    ∀ s ∈ m.sections, 1 ≤ s.frameCount := by
  obtain ⟨hfc, hsec⟩ := runPack_ok_parts step maxW tileW stems baseW baseH m h
  obtain ⟨hchain, hlen⟩ := buildFlatSections_inv (angleList step.toNat)
    (discover (angleList step.toNat) stems)
  rw [hsec]
  intro s hs
  rcases List.mem_map.1 hs with ⟨a, ha, rfl⟩
  exact exactChain_counts _ 0 hchain a ha

theorem claimC10_witness :
    (⟨"my_face", "default", 0, 3⟩ : ManifestSection) ∈
        (⟨120, 3, 100, 80, 2, 2, "anim-face.jpg", [⟨"my_face", "default", 0, 3⟩]⟩ :
          Manifest).sections ∧
      1 ≤ (⟨"my_face", "default", 0, 3⟩ : ManifestSection).frameCount :=
  ⟨by decide,
    claimC10_sections_nonempty 120 256 none ["my_face_0", "my_face_120", "my_face_240"]
      100 80 ⟨120, 3, 100, 80, 2, 2, "anim-face.jpg", [⟨"my_face", "default", 0, 3⟩]⟩
      (by decide) ⟨"my_face", "default", 0, 3⟩ (by decide)⟩

theorem claimC1_amended_witness :
    1 ≤ (1 : ℕ) ∧ 1 ≤ (100 : ℕ) ∧ 1 ≤ (50 : ℕ) ∧ (∀ t ∈ some 100, 1 ≤ t) ∧
      (50 < (plan 1 100 100 50 (some 100)).targetW → (plan 1 100 100 50 (some 100)).columns = 1) :=
  ⟨by decide, by decide, by decide, by decide,
    (claimC1_amended_width_bound 1 100 100 50 (some 100) (by decide) (by decide) (by decide)
      (by decide)).2.2⟩

end FaceAtlas
